import Mathlib

/-!
Verification of the TGI (tumor-growth-inhibition) PK/PD simulator of this
repository. The scripts share one core: a 5-state ODE right-hand side
(`tgi_model` in `10_C2.py`, `10_C4.py`, `Simulations/*.py`), a dose-schedule
generator (fixed interval via `np.arange`, or cyclic on/off blocks), and a
stepwise driver loop that injects dose boluses and advances the state one
`dt_step` window at a time through an adaptive solver (`solve_ivp`, external
to the repository and therefore abstracted below as a solver parameter).

Machine floats are modelled as exact real (ODE layer) or rational (driver
layer, where every operation is field arithmetic and comparison) numbers.
-/

/-- The fixed parameter set of the model: PK constants `ka`, `CL`, `V1`, `V2`,
`Q` and PD constants `kge` (growth rate), `kkill` (kill rate), `lres`
(resistance decay rate).  The scripts keep these as module-level constants;
the claims quantify over every parameter set, so they are a record here. -/
structure Params where
  ka : ℝ
  CL : ℝ
  V1 : ℝ
  V2 : ℝ
  Q : ℝ
  kge : ℝ
  kkill : ℝ
  lres : ℝ

/-- The 5-dimensional state vector `y = [A_gut, Ac, Ap, TS, timeSinceTrtStart]`
of the scripts, over a general scalar type so the same driver can be read at
`ℚ` (exact evaluation) and at `ℝ` (connection with the ODE layer). -/
structure St (α : Type) where
  gut : α
  central : α
  periph : α
  ts : α
  clock : α
  deriving Repr, DecidableEq

/-- The ODE right-hand side `tgi_model(t, y, dose_active)` of `10_C2.py`
lines 44-65, transcribed clause by clause (the time argument is unused by the
source body, so it is omitted): `k12 = Q/V1`, `k21 = Q/V2`, the three linear
PK derivatives, `EXPOSURE = Ac/V1`, the clock derivative `1.0 if dose_active
else 0.0`, the kill coefficient `K` (a conditional expression on
`dose_active`), and the three-regime tumor derivative. -/
noncomputable def tgi_model (p : Params) (active : Bool) (y : St ℝ) : St ℝ :=
  let k12 := p.Q / p.V1
  let k21 := p.Q / p.V2
  let dgut := -p.ka * y.gut
  let dc := p.ka * y.gut - k12 * y.central - (p.CL / p.V1) * y.central + k21 * y.periph
  let dp := k12 * y.central - k21 * y.periph
  let EXPOSURE := y.central / p.V1
  let dclock : ℝ := if active then 1.0 else 0.0
  let K : ℝ := if active then
      p.kkill * EXPOSURE * Real.exp (-p.lres * y.clock) * Real.exp (-0.1 * y.ts)
    else 0.0
  let dts : ℝ := if y.ts > 1e12 then 0
    else if y.ts < 0.08 then -K * y.ts
    else p.kge * y.ts - K * y.ts
  ⟨dgut, dc, dp, dts, dclock⟩

/-- The kill coefficient exactly as the spec words it: `K = killRate ·
(central/V1) · exp(−resistanceDecayRate·clock) · exp(−0.1·TS)` when active,
`0` otherwise. -/
noncomputable def killCoefSpec (p : Params) (active : Bool) (y : St ℝ) : ℝ :=
  if active then
    p.kkill * (y.central / p.V1) * Real.exp (-p.lres * y.clock) * Real.exp (-0.1 * y.ts)
  else 0

/-- The spec's reference derivative definition, written from the spec text
(§4.2 and claim C1), with `k12`, `k21`, `exposure` inlined as the spec's
formulas `Q/V1`, `Q/V2`, `central/V1`. -/
noncomputable def tgiSpecRhs (p : Params) (active : Bool) (y : St ℝ) : St ℝ :=
  { gut := -p.ka * y.gut
    central := p.ka * y.gut - (p.Q / p.V1) * y.central - (p.CL / p.V1) * y.central
      + (p.Q / p.V2) * y.periph
    periph := (p.Q / p.V1) * y.central - (p.Q / p.V2) * y.periph
    ts := if y.ts > 1e12 then 0
      else if y.ts < 0.08 then -(killCoefSpec p active y) * y.ts
      else p.kge * y.ts - (killCoefSpec p active y) * y.ts
    clock := if active then 1 else 0 }

/-- **C1.** For every state vector, every parameter set and every value of the
active flag, the code's right-hand side `tgi_model` returns exactly the
derivatives of the spec's reference definition `tgiSpecRhs`: the three PK
derivatives, the guarded kill coefficient, and the three-regime tumor
derivative agree componentwise. -/
theorem tgi_model_eq_spec (p : Params) (active : Bool) (y : St ℝ) :
    tgi_model p active y = tgiSpecRhs p active y := by
  cases active <;>
    simp only [tgi_model, tgiSpecRhs, killCoefSpec, St.mk.injEq] <;>
    norm_num

/-- **C7.** With `killRate = 0` and `TS` in the normal regime
`0.08 ≤ TS ≤ 1e12`, the tumor derivative of `tgi_model` equals
`growthRate · TS` exactly, and is strictly positive when `growthRate > 0`
(here `TS ≥ 0.08 > 0` makes `TS > 0` automatic), for either value of the
active flag. -/
theorem tgi_noKill_growth (p : Params) (active : Bool) (y : St ℝ)
    (hk : p.kkill = 0) (hlo : 0.08 ≤ y.ts) (hhi : y.ts ≤ 1e12) (hg : 0 < p.kge) :
    (tgi_model p active y).ts = p.kge * y.ts ∧ 0 < (tgi_model p active y).ts := by
  have hts : (tgi_model p active y).ts = p.kge * y.ts := by
    cases active <;>
      simp only [tgi_model, hk] <;>
      rw [if_neg (not_lt.mpr hhi), if_neg (not_lt.mpr hlo)] <;> norm_num
  exact ⟨hts, hts ▸ mul_pos hg (lt_of_lt_of_le (by norm_num) hlo)⟩

/-- Witness for C7 at a concrete input: parameters with `kkill = 0`,
`kge = 1`, state with `TS = 10`. -/
theorem tgi_noKill_growth_witness :
    (tgi_model ⟨1, 1, 1, 1, 1, 1, 0, 1⟩ true ⟨0, 0, 0, 10, 0⟩).ts = 1 * 10 ∧
      0 < (tgi_model ⟨1, 1, 1, 1, 1, 1, 0, 1⟩ true ⟨0, 0, 0, 10, 0⟩).ts :=
  tgi_noKill_growth ⟨1, 1, 1, 1, 1, 1, 0, 1⟩ true ⟨0, 0, 0, 10, 0⟩ rfl
    (by norm_num) (by norm_num) (by norm_num)

/-!
## Dose-schedule generators

`10_C2.py` line 38 builds the fixed-interval schedule with
`np.arange(0, treatment_duration + 0.1, dose_interval)`: the values
`k * I` for `k = 0, 1, ...` while `k * I < D + 0.1`, i.e. `⌈(D + 1/10)/I⌉`
values.  `Simulations/10_C16.py` lines 40-48 build the cyclic schedule with a
`while` loop that emits the integers `t + d` (`d = 0, ..., 27`) subject to
`t + d < treatment_duration` and then jumps `t += 42`.
-/

/-- The fixed-interval schedule `np.arange(0, D + 0.1, I)` of `10_C2.py`
line 38, in exact rational arithmetic: `⌈(D + 1/10)/I⌉` equally spaced values
starting at `0` (for `I > 0`; `numpy` emits exactly the multiples `k·I`
strictly below the stop value `D + 0.1`). -/
def dose_times_fixed (D I : ℚ) : List ℚ :=
  (List.range (⌈(D + 1 / 10) / I⌉.toNat)).map (fun (k : ℕ) => (k : ℚ) * I)

/-- One pass of the `while t < treatment_duration` loop of
`Simulations/10_C16.py` lines 42-47: emit `t + d` for `d ∈ range 28` with
`t + d < dur`, then recurse at `t + 42`.  The loop advances `t` by 42 each
iteration, so `dur + 1` units of fuel are more than enough for the
structural recursion to cover every iteration the `while` loop performs. -/
def cyclicAux (dur : ℕ) : ℕ → ℕ → List ℕ
  | _, 0 => []
  | t, fuel + 1 =>
    if t < dur then
      ((List.range 28).filter (fun d => t + d < dur)).map (fun d => t + d)
        ++ cyclicAux dur (t + 42) fuel
    else []

/-- The cyclic 28-on/14-off schedule of `Simulations/10_C16.py` lines 40-48. -/
def dose_times_cyclic (dur : ℕ) : List ℕ :=
  cyclicAux dur 0 (dur + 1)

/-- **C3.** For the cyclic mode with `on = 28`, `off = 14` and treatment
duration `84`, the generated schedule is exactly the 56 integers
`{0, ..., 27} ∪ {42, ..., 69}`: two full 28-day ON blocks, nothing in either
14-day OFF gap `[28, 42)` or `[70, 84)`, strictly increasing, and every
emitted time strictly below the treatment duration. -/
theorem cyclic_schedule_84 :
    dose_times_cyclic 84 = List.range 28 ++ (List.range 28).map (fun d => 42 + d) ∧
    (dose_times_cyclic 84).length = 56 ∧
    (dose_times_cyclic 84).Pairwise (· < ·) ∧
    (∀ x ∈ dose_times_cyclic 84, x < 84) ∧
    (∀ x ∈ dose_times_cyclic 84, ¬(28 ≤ x ∧ x < 42) ∧ ¬(70 ≤ x ∧ x < 84)) := by
  decide

/-- Lemma: the index count of `np.arange(0, D + 0.1, I)` is one more than
`⌊D/I⌋` exactly when the last emitted multiple of `I` does not overshoot
`D`. -/
theorem arange_count_eq (D I : ℚ) (hI : 0 < I)
    (hlast : ((⌈(D + 1 / 10) / I⌉ : ℚ) - 1) * I ≤ D) :
    ⌈(D + 1 / 10) / I⌉ = ⌊D / I⌋ + 1 := by
  have hub : (⌈(D + 1 / 10) / I⌉ : ℤ) - 1 ≤ ⌊D / I⌋ := by
    apply Int.le_floor.mpr
    have h1 : ((⌈(D + 1 / 10) / I⌉ : ℚ) - 1) ≤ D / I := (le_div_iff₀ hI).mpr hlast
    push_cast
    exact h1
  have hlb : ⌊D / I⌋ < ⌈(D + 1 / 10) / I⌉ := by
    have h2 : (⌊D / I⌋ : ℚ) ≤ D / I := Int.floor_le _
    have h3 : D / I < (D + 1 / 10) / I :=
      (div_lt_div_iff_of_pos_right hI).mpr (by linarith)
    have h4 : (D + 1 / 10) / I ≤ (⌈(D + 1 / 10) / I⌉ : ℚ) := Int.le_ceil _
    exact_mod_cast lt_of_le_of_lt h2 (lt_of_lt_of_le h3 h4)
  omega

/-- **C2 (amended).** For a fixed-interval regime with `I > 0`, `D > 0`,
provided the last `arange` point does not overshoot `D` (equivalently, no
multiple of `I` falls in the slack window `(D, D + 0.1)` that the source's
`np.arange(0, D + 0.1, I)` stop value opens), the schedule has length
`⌊D/I⌋ + 1`, is strictly increasing, and lies inside `[0, D]`. -/
theorem fixed_schedule_amended (D I : ℚ) (hI : 0 < I) (hD : 0 < D)
    (hlast : ((⌈(D + 1 / 10) / I⌉ : ℚ) - 1) * I ≤ D) :
    (dose_times_fixed D I).length = (⌊D / I⌋).toNat + 1 ∧
    (dose_times_fixed D I).Pairwise (· < ·) ∧
    ∀ x ∈ dose_times_fixed D I, 0 ≤ x ∧ x ≤ D := by
  have hcount := arange_count_eq D I hI hlast
  have hfl : 0 ≤ ⌊D / I⌋ := Int.floor_nonneg.mpr (div_pos hD hI).le
  refine ⟨?_, ?_, ?_⟩
  · simp only [dose_times_fixed, List.length_map, List.length_range, hcount]
    omega
  · refine List.Pairwise.map (fun (k : ℕ) => (k : ℚ) * I) ?_
      (List.pairwise_lt_range _)
    intro a b hab
    exact mul_lt_mul_of_pos_right (by exact_mod_cast hab) hI
  · intro x hx
    rw [dose_times_fixed, List.mem_map] at hx
    obtain ⟨k, hkmem, rfl⟩ := hx
    rw [List.mem_range] at hkmem
    refine ⟨mul_nonneg (Nat.cast_nonneg k) hI.le, ?_⟩
    have hk2 : (k : ℚ) ≤ (⌈(D + 1 / 10) / I⌉ : ℚ) - 1 := by
      have hnn : (0 : ℤ) ≤ ⌈(D + 1 / 10) / I⌉ := by omega
      have hk3 : (k : ℤ) ≤ ⌈(D + 1 / 10) / I⌉ - 1 := by omega
      push_cast at hk3
      exact_mod_cast hk3
    calc (k : ℚ) * I ≤ ((⌈(D + 1 / 10) / I⌉ : ℚ) - 1) * I :=
          mul_le_mul_of_nonneg_right hk2 hI.le
      _ ≤ D := hlast

/-- Witness for the amended C2 at the concrete regime of `10_C4.py`
(`D = 42`, `I = 2`): the hypotheses hold and the schedule has the claimed
length `⌊42/2⌋ + 1 = 22`. -/
theorem fixed_schedule_amended_witness :
    ((0 : ℚ) < 2 ∧ (0 : ℚ) < 42 ∧
      ((⌈((42 : ℚ) + 1 / 10) / 2⌉ : ℚ) - 1) * 2 ≤ 42) ∧
    (dose_times_fixed 42 2).length = (⌊(42 : ℚ) / 2⌋).toNat + 1 := by
  have hc : (⌈((42 : ℚ) + 1 / 10) / 2⌉ : ℤ) = 22 := by
    rw [Int.ceil_eq_iff]
    norm_num
  refine ⟨⟨by norm_num, by norm_num, by rw [hc]; norm_num⟩,
    (fixed_schedule_amended 42 2 (by norm_num) (by norm_num)
      (by rw [hc]; norm_num)).1⟩

/-- **C2 (counterexample).** At interval `I = 11/20` and duration
`D = 21/20` (both positive), the code's `np.arange(0, D + 0.1, I)` emits a
third point `11/10`, which exceeds `D`: the length is `3`, not
`⌊D/I⌋ + 1 = 2`, and not every emitted time is `≤ D`.  So the claim's
universally quantified statement is false on the code. -/
theorem fixed_schedule_counterexample :
    (0 : ℚ) < 11 / 20 ∧ (0 : ℚ) < 21 / 20 ∧
    dose_times_fixed (21 / 20) (11 / 20) = [0, 11 / 20, 11 / 10] ∧
    (dose_times_fixed (21 / 20) (11 / 20)).length ≠
      (⌊(21 / 20 : ℚ) / (11 / 20)⌋).toNat + 1 ∧
    ¬(∀ x ∈ dose_times_fixed (21 / 20) (11 / 20), x ≤ 21 / 20) := by
  have hc : (⌈((21 : ℚ) / 20 + 1 / 10) / (11 / 20)⌉ : ℤ) = 3 := by
    rw [Int.ceil_eq_iff]
    norm_num
  have hf : (⌊((21 : ℚ) / 20) / (11 / 20)⌋ : ℤ) = 1 := by
    rw [Int.floor_eq_iff]
    norm_num
  have hr : List.range (Int.toNat 3) = [0, 1, 2] := by decide
  have hlist : dose_times_fixed (21 / 20) (11 / 20) = [0, 11 / 20, 11 / 10] := by
    rw [dose_times_fixed, hc, hr]
    norm_num
  refine ⟨by norm_num, by norm_num, hlist, ?_, ?_⟩
  · rw [hlist, hf]
    norm_num
  · intro hall
    have := hall (11 / 10) (by rw [hlist]; simp)
    norm_num at this

/-!
## The stepwise integration driver

The loop of `10_C2.py` lines 85-99, over a general linear ordered field so
that the very same definitions can be evaluated exactly at `ℚ` and related
to the real-valued ODE layer at `ℝ`.  `solve_ivp` is external library code:
the integration of one `[0, dt_step]` window is abstracted as a function
`solver : Bool → St α → St α` from the active flag and the window's initial
state to the window's final state (the only data the loop passes and reads;
the window `[0, dt_step]` and the RK45 method are fixed throughout a run).
-/

/-- The driver's fixed data: the dose-time schedule `dose_times`, the bolus
amount `dose`, the treatment duration (gate of the `dose_active` flag) and
the central volume `V1` used for the reported exposure. -/
structure DrvParams (α : Type) where
  sched : List α
  dose : α
  tdur : α
  V1 : α

/-- The driver's loop-carried data: the 5-dimensional state `y`, the dose
cursor `dose_index`, and the three result lists `TS_list`, `EXPOSURE_list`,
`t_list` being accumulated. -/
structure DrvState (α : Type) where
  y : St α
  idx : ℕ
  tsOut : List α
  expOut : List α
  tOut : List α
  deriving Repr, DecidableEq

/-- The bolus conditional of `10_C2.py` lines 86-88: if
`dose_index < len(dose_times)` and `abs(t - dose_times[dose_index]) < 1e-6`,
add `dose` to the gut amount and advance the cursor; otherwise leave the
state untouched. -/
def applyDose {α : Type} [LinearOrderedField α] (sched : List α) (dose : α)
    (t : α) (s : DrvState α) : DrvState α :=
  if h : s.idx < sched.length then
    if |t - sched.get ⟨s.idx, h⟩| < 1 / 1000000 then
      { s with y := { s.y with gut := s.y.gut + dose }, idx := s.idx + 1 }
    else s
  else s

/-- One iteration of the `for t in t_eval` loop of `10_C2.py` lines 85-99:
apply the bolus conditional, compute `dose_active = t <= treatment_duration`,
integrate the window through the solver, and append `TS`, `Ac/V1` and `t` to
the three result lists. -/
def driverStep {α : Type} [LinearOrderedField α] (P : DrvParams α)
    (solver : Bool → St α → St α) (t : α) (s : DrvState α) : DrvState α :=
  let s1 := applyDose P.sched P.dose t s
  let active : Bool := decide (t ≤ P.tdur)
  let y2 := solver active s1.y
  { y := y2
    idx := s1.idx
    tsOut := s1.tsOut ++ [y2.ts]
    expOut := s1.expOut ++ [y2.central / P.V1]
    tOut := s1.tOut ++ [t] }

/-- The whole driver loop: fold `driverStep` over the evaluation grid
`t_eval` (which in `10_C2.py` is `np.arange(0, sim_duration + dt_step,
dt_step)` and includes the time `0`). -/
def driverRun {α : Type} [LinearOrderedField α] (P : DrvParams α)
    (solver : Bool → St α → St α) : List α → DrvState α → DrvState α
  | [], s => s
  | t :: rest, s => driverRun P solver rest (driverStep P solver t s)

/-- Unfolding equation of `driverRun` on a non-empty grid. -/
theorem driverRun_cons {α : Type} [LinearOrderedField α] (P : DrvParams α)
    (solver : Bool → St α → St α) (t : α) (rest : List α) (s : DrvState α) :
    driverRun P solver (t :: rest) s = driverRun P solver rest (driverStep P solver t s) :=
  rfl

/-- The bolus conditional never touches the three result lists, the PK state
other than the gut amount, the tumor diameter or the clock. -/
theorem applyDose_frame {α : Type} [LinearOrderedField α] (sched : List α)
    (dose t : α) (s : DrvState α) :
    (applyDose sched dose t s).y.central = s.y.central ∧
    (applyDose sched dose t s).y.periph = s.y.periph ∧
    (applyDose sched dose t s).y.ts = s.y.ts ∧
    (applyDose sched dose t s).y.clock = s.y.clock ∧
    (applyDose sched dose t s).tsOut = s.tsOut ∧
    (applyDose sched dose t s).expOut = s.expOut ∧
    (applyDose sched dose t s).tOut = s.tOut := by
  rw [applyDose]
  split_ifs <;> exact ⟨rfl, rfl, rfl, rfl, rfl, rfl, rfl⟩

/-- **C4.** When a dose is due — the cursor is in range and the grid time is
within `1e-6` of the scheduled time — the bolus adds exactly the dose amount
to the gut compartment and advances the cursor by one, and changes nothing
else: not the other four state components and not the result sequences. -/
theorem dose_bolus_exact {α : Type} [LinearOrderedField α] (sched : List α)
    (dose t : α) (s : DrvState α) (hidx : s.idx < sched.length)
    (hclose : |t - sched.get ⟨s.idx, hidx⟩| < 1 / 1000000) :
    (applyDose sched dose t s).y.gut = s.y.gut + dose ∧
    (applyDose sched dose t s).idx = s.idx + 1 ∧
    (applyDose sched dose t s).y.central = s.y.central ∧
    (applyDose sched dose t s).y.periph = s.y.periph ∧
    (applyDose sched dose t s).y.ts = s.y.ts ∧
    (applyDose sched dose t s).y.clock = s.y.clock ∧
    (applyDose sched dose t s).tsOut = s.tsOut ∧
    (applyDose sched dose t s).expOut = s.expOut ∧
    (applyDose sched dose t s).tOut = s.tOut := by
  rw [applyDose, dif_pos hidx, if_pos hclose]
  exact ⟨rfl, rfl, rfl, rfl, rfl, rfl, rfl, rfl, rfl⟩

/-- Witness for C4 at a concrete input: schedule `[0]`, dose `20`, time `0`,
cursor `0`, pre-dose gut amount `1`. -/
theorem dose_bolus_exact_witness :
    (applyDose [(0 : ℚ)] 20 0 ⟨⟨1, 2, 3, 4, 5⟩, 0, [], [], []⟩).y.gut = 1 + 20 ∧
    (applyDose [(0 : ℚ)] 20 0 ⟨⟨1, 2, 3, 4, 5⟩, 0, [], [], []⟩).idx = 0 + 1 := by
  have h := dose_bolus_exact [(0 : ℚ)] 20 0 ⟨⟨1, 2, 3, 4, 5⟩, 0, [], [], []⟩
    (by norm_num)
    (by show |(0 : ℚ) - 0| < 1 / 1000000; rw [sub_self, abs_zero]; norm_num)
  exact ⟨h.1, h.2.1⟩

/-- The dose cursor of a step equals the cursor after the bolus conditional
(the rest of the loop body never writes `dose_index`). -/
theorem driverStep_idx {α : Type} [LinearOrderedField α] (P : DrvParams α)
    (solver : Bool → St α → St α) (t : α) (s : DrvState α) :
    (driverStep P solver t s).idx = (applyDose P.sched P.dose t s).idx :=
  rfl

/-- Per step the cursor either stays or advances by exactly one. -/
theorem applyDose_idx_bounds {α : Type} [LinearOrderedField α] (sched : List α)
    (dose t : α) (s : DrvState α) :
    s.idx ≤ (applyDose sched dose t s).idx ∧
    (applyDose sched dose t s).idx ≤ s.idx + 1 := by
  rw [applyDose]
  split_ifs <;> simp

/-- If the cursor sits at a schedule entry that the current time does not
match within `1e-6`, the bolus conditional leaves the cursor in place. -/
theorem applyDose_far_idx {α : Type} [LinearOrderedField α] (sched : List α)
    (dose t : α) (s : DrvState α) (i : ℕ) (hi : i < sched.length)
    (heq : s.idx = i) (hfar : ¬(|t - sched.get ⟨i, hi⟩| < 1 / 1000000)) :
    (applyDose sched dose t s).idx = i := by
  subst heq
  rw [applyDose, dif_pos hi, if_neg hfar]

/-- **C9.** The driver compares only the schedule entry at the current
cursor with the step's grid time, so (i) per step the cursor is monotone and
advances by at most one — each scheduled dose is administered at most once
and in schedule order — and (ii) if entry `i` of the schedule is never
within `1e-6` of any visited grid time, a run starting with cursor `≤ i`
ends with cursor `≤ i`: dose `i` and every later dose are never
administered, and no error is raised (the loop total-functionally
continues). -/
theorem dose_cursor_behavior {α : Type} [LinearOrderedField α] :
    (∀ (P : DrvParams α) (solver : Bool → St α → St α) (t : α) (s : DrvState α),
      s.idx ≤ (driverStep P solver t s).idx ∧
      (driverStep P solver t s).idx ≤ s.idx + 1) ∧
    (∀ (P : DrvParams α) (solver : Bool → St α → St α) (grid : List α)
      (s : DrvState α) (i : ℕ) (hi : i < P.sched.length),
      s.idx ≤ i →
      (∀ t ∈ grid, ¬(|t - P.sched.get ⟨i, hi⟩| < 1 / 1000000)) →
      (driverRun P solver grid s).idx ≤ i) := by
  constructor
  · intro P solver t s
    rw [driverStep_idx]
    exact applyDose_idx_bounds P.sched P.dose t s
  · intro P solver grid
    induction grid with
    | nil => intro s i hi hle _; exact hle
    | cons t rest ih =>
      intro s i hi hle hfar
      rw [driverRun_cons]
      refine ih (driverStep P solver t s) i hi ?_
        (fun u hu => hfar u (List.mem_cons_of_mem t hu))
      rcases lt_or_eq_of_le hle with hlt | heq
      · have hb := (applyDose_idx_bounds P.sched P.dose t s).2
        rw [driverStep_idx]
        omega
      · rw [driverStep_idx,
          applyDose_far_idx P.sched P.dose t s i hi heq
            (hfar t (List.mem_cons_self t rest))]

/-- Witness for C9 at a concrete input: schedule `[0, 5]`, cursor starting
at `0`, target entry `i = 1` (time `5`), grid `[0, 1/10]` which never comes
within `1e-6` of `5`; the final cursor stays `≤ 1`. -/
theorem dose_cursor_behavior_witness :
    (driverRun ⟨[(0 : ℚ), 5], 20, 252, 2700⟩ (fun _ y => y) [0, 1 / 10]
      ⟨⟨0, 0, 0, 10, 0⟩, 0, [], [], []⟩).idx ≤ 1 := by
  refine (dose_cursor_behavior.2) ⟨[(0 : ℚ), 5], 20, 252, 2700⟩ (fun _ y => y)
    [0, 1 / 10] ⟨⟨0, 0, 0, 10, 0⟩, 0, [], [], []⟩ 1 (by norm_num)
    (by norm_num) ?_
  intro t ht
  rcases List.mem_pair.mp ht with h | h <;> subst h <;>
    norm_num [abs_of_nonneg]

/-- The small-step relation of the driver loop: one constructor per loop
iteration, relating the remaining grid and the loop-carried state to the
final state.  Two runs of the source loop from identical inputs are two
derivations of this relation. -/
inductive DriverSteps {α : Type} [LinearOrderedField α] (P : DrvParams α)
    (solver : Bool → St α → St α) : List α → DrvState α → DrvState α → Prop
  | done (s : DrvState α) : DriverSteps P solver [] s s
  | more (t : α) (rest : List α) (s s2 : DrvState α) :
      DriverSteps P solver rest (driverStep P solver t s) s2 →
      DriverSteps P solver (t :: rest) s s2

/-- Any derivation of the loop relation computes `driverRun`. -/
theorem driverSteps_eq_run {α : Type} [LinearOrderedField α] (P : DrvParams α)
    (solver : Bool → St α → St α) (grid : List α) (s s2 : DrvState α)
    (h : DriverSteps P solver grid s s2) : s2 = driverRun P solver grid s := by
  induction h with
  | done s => rfl
  | more t rest s s2 h ih => exact ih

/-- **C8.** The driver core is deterministic: the loop relation is realized
by the (pure) function `driverRun`, and any two executions of the loop from
identical parameters, schedule, grid and initial state reach identical final
states — in particular the three output sequences (time, tumor diameter,
exposure) agree entry by entry.  No randomness enters the core. -/
theorem driver_deterministic {α : Type} [LinearOrderedField α] (P : DrvParams α)
    (solver : Bool → St α → St α) :
    (∀ (grid : List α) (s : DrvState α),
      DriverSteps P solver grid s (driverRun P solver grid s)) ∧
    (∀ (grid : List α) (s s1 s2 : DrvState α),
      DriverSteps P solver grid s s1 → DriverSteps P solver grid s s2 →
      s1 = s2 ∧ s1.tsOut = s2.tsOut ∧ s1.expOut = s2.expOut ∧ s1.tOut = s2.tOut) := by
  constructor
  · intro grid
    induction grid with
    | nil => intro s; exact DriverSteps.done s
    | cons t rest ih =>
      intro s
      exact DriverSteps.more t rest s _ (ih (driverStep P solver t s))
  · intro grid s s1 s2 h1 h2
    have e1 := driverSteps_eq_run P solver grid s s1 h1
    have e2 := driverSteps_eq_run P solver grid s s2 h2
    subst e1; subst e2
    exact ⟨rfl, rfl, rfl, rfl⟩

/-- Witness for C8 at a concrete input: two derivations of the one-step run
on grid `[0]` reach equal states with equal output sequences. -/
theorem driver_deterministic_witness :
    (driverStep ⟨[(0 : ℚ)], 20, 252, 2700⟩ (fun _ y => y) 0
        ⟨⟨0, 0, 0, 10, 0⟩, 0, [], [], []⟩) =
      (driverStep ⟨[(0 : ℚ)], 20, 252, 2700⟩ (fun _ y => y) 0
        ⟨⟨0, 0, 0, 10, 0⟩, 0, [], [], []⟩) ∧
    (driverStep ⟨[(0 : ℚ)], 20, 252, 2700⟩ (fun _ y => y) 0
        ⟨⟨0, 0, 0, 10, 0⟩, 0, [], [], []⟩).tsOut =
      (driverStep ⟨[(0 : ℚ)], 20, 252, 2700⟩ (fun _ y => y) 0
        ⟨⟨0, 0, 0, 10, 0⟩, 0, [], [], []⟩).tsOut := by
  have d : DriverSteps ⟨[(0 : ℚ)], 20, 252, 2700⟩ (fun _ y => y) [0]
      ⟨⟨0, 0, 0, 10, 0⟩, 0, [], [], []⟩
      (driverStep ⟨[(0 : ℚ)], 20, 252, 2700⟩ (fun _ y => y) 0
        ⟨⟨0, 0, 0, 10, 0⟩, 0, [], [], []⟩) :=
    DriverSteps.more 0 [] _ _ (DriverSteps.done _)
  have h := (driver_deterministic ⟨[(0 : ℚ)], 20, 252, 2700⟩ (fun _ y => y)).2
    [0] ⟨⟨0, 0, 0, 10, 0⟩, 0, [], [], []⟩ _ _ d d
  exact ⟨h.1, h.2.1⟩

/-!
## Alignment of the result sequences (C10)

In `10_C2.py` the loop appends, under the time label `t`, the state reached
at the END of the window integrated during iteration `t` — not the state at
`t`.  The traces below name the per-iteration appended values.
-/

/-- The tumor-diameter values appended by successive loop iterations. -/
def tsTrace {α : Type} [LinearOrderedField α] (P : DrvParams α)
    (solver : Bool → St α → St α) : List α → DrvState α → List α
  | [], _ => []
  | t :: rest, s =>
    (driverStep P solver t s).y.ts :: tsTrace P solver rest (driverStep P solver t s)

/-- The exposure values `Ac/V1` appended by successive loop iterations. -/
def expTrace {α : Type} [LinearOrderedField α] (P : DrvParams α)
    (solver : Bool → St α → St α) : List α → DrvState α → List α
  | [], _ => []
  | t :: rest, s =>
    (driverStep P solver t s).y.central / P.V1
      :: expTrace P solver rest (driverStep P solver t s)

/-- A run only appends to `t_list`: the final time column is the initial one
followed by the whole grid. -/
theorem driverRun_tOut {α : Type} [LinearOrderedField α] (P : DrvParams α)
    (solver : Bool → St α → St α) (grid : List α) (s : DrvState α) :
    (driverRun P solver grid s).tOut = s.tOut ++ grid := by
  induction grid generalizing s with
  | nil => simp [driverRun]
  | cons t rest ih =>
    rw [driverRun_cons, ih]
    have hd : (driverStep P solver t s).tOut = s.tOut ++ [t] := by
      show (applyDose P.sched P.dose t s).tOut ++ [t] = s.tOut ++ [t]
      rw [(applyDose_frame P.sched P.dose t s).2.2.2.2.2.2]
    rw [hd, List.append_assoc]
    rfl

/-- A run appends exactly the tumor-diameter trace to `TS_list`. -/
theorem driverRun_tsOut {α : Type} [LinearOrderedField α] (P : DrvParams α)
    (solver : Bool → St α → St α) (grid : List α) (s : DrvState α) :
    (driverRun P solver grid s).tsOut = s.tsOut ++ tsTrace P solver grid s := by
  induction grid generalizing s with
  | nil => simp [driverRun, tsTrace]
  | cons t rest ih =>
    rw [driverRun_cons, ih, tsTrace]
    have hd : (driverStep P solver t s).tsOut = s.tsOut ++ [(driverStep P solver t s).y.ts] := by
      show (applyDose P.sched P.dose t s).tsOut ++ _ = _
      rw [(applyDose_frame P.sched P.dose t s).2.2.2.2.1]
      rfl
    rw [hd, List.append_assoc]
    rfl

/-- A run appends exactly the exposure trace to `EXPOSURE_list`. -/
theorem driverRun_expOut {α : Type} [LinearOrderedField α] (P : DrvParams α)
    (solver : Bool → St α → St α) (grid : List α) (s : DrvState α) :
    (driverRun P solver grid s).expOut = s.expOut ++ expTrace P solver grid s := by
  induction grid generalizing s with
  | nil => simp [driverRun, expTrace]
  | cons t rest ih =>
    rw [driverRun_cons, ih, expTrace]
    have hd : (driverStep P solver t s).expOut
        = s.expOut ++ [(driverStep P solver t s).y.central / P.V1] := by
      show (applyDose P.sched P.dose t s).expOut ++ _ = _
      rw [(applyDose_frame P.sched P.dose t s).2.2.2.2.2.1]
      rfl
    rw [hd, List.append_assoc]
    rfl

/-- Entry `k` of the tumor-diameter trace is the state at the end of the
`(k+1)`-st integration window, i.e. the state after running the first `k+1`
grid times. -/
theorem tsTrace_get {α : Type} [LinearOrderedField α] (P : DrvParams α)
    (solver : Bool → St α → St α) (grid : List α) (s : DrvState α) (k : ℕ)
    (hk : k < grid.length) :
    (tsTrace P solver grid s).get? k
      = some ((driverRun P solver (grid.take (k + 1)) s).y.ts) := by
  induction grid generalizing s k with
  | nil => exact absurd hk (by simp)
  | cons t rest ih =>
    cases k with
    | zero => rfl
    | succ k =>
      have hk2 : k < rest.length := by simpa using hk
      exact ih (driverStep P solver t s) k hk2

/-- Entry `k` of the exposure trace is the exposure at the end of the
`(k+1)`-st integration window. -/
theorem expTrace_get {α : Type} [LinearOrderedField α] (P : DrvParams α)
    (solver : Bool → St α → St α) (grid : List α) (s : DrvState α) (k : ℕ)
    (hk : k < grid.length) :
    (expTrace P solver grid s).get? k
      = some ((driverRun P solver (grid.take (k + 1)) s).y.central / P.V1) := by
  induction grid generalizing s k with
  | nil => exact absurd hk (by simp)
  | cons t rest ih =>
    cases k with
    | zero => rfl
    | succ k =>
      have hk2 : k < rest.length := by simpa using hk
      exact ih (driverStep P solver t s) k hk2

/-- The traces have one entry per loop iteration. -/
theorem tsTrace_length {α : Type} [LinearOrderedField α] (P : DrvParams α)
    (solver : Bool → St α → St α) (grid : List α) (s : DrvState α) :
    (tsTrace P solver grid s).length = grid.length := by
  induction grid generalizing s with
  | nil => rfl
  | cons t rest ih => simpa [tsTrace] using ih (driverStep P solver t s)

/-- The exposure trace has one entry per loop iteration. -/
theorem expTrace_length {α : Type} [LinearOrderedField α] (P : DrvParams α)
    (solver : Bool → St α → St α) (grid : List α) (s : DrvState α) :
    (expTrace P solver grid s).length = grid.length := by
  induction grid generalizing s with
  | nil => rfl
  | cons t rest ih => simpa [expTrace] using ih (driverStep P solver t s)

/-- **C10.** Starting from empty result lists, a run of the driver of
`10_C2.py` produces: a time column equal to the whole grid (one entry per
grid time, including `0`); three result sequences of equal length (the grid
length); and, at every index `k`, a tumor-diameter and an exposure entry
equal to the state at the END of iteration `k`'s integration window (the
state after the first `k+1` steps).  In particular, the entry labeled by the
first grid time `0` is the post-first-window state, not the initial state
`(0, TS0, 0)`. -/
theorem result_alignment {α : Type} [LinearOrderedField α] (P : DrvParams α)
    (solver : Bool → St α → St α) (grid : List α) (s0 : DrvState α)
    (h1 : s0.tsOut = []) (h2 : s0.expOut = []) (h3 : s0.tOut = []) :
    (driverRun P solver grid s0).tOut = grid ∧
    (driverRun P solver grid s0).tsOut.length = grid.length ∧
    (driverRun P solver grid s0).expOut.length = grid.length ∧
    (∀ k, k < grid.length →
      (driverRun P solver grid s0).tsOut.get? k
          = some ((driverRun P solver (grid.take (k + 1)) s0).y.ts) ∧
      (driverRun P solver grid s0).expOut.get? k
          = some ((driverRun P solver (grid.take (k + 1)) s0).y.central / P.V1)) ∧
    (∀ t0 rest, grid = t0 :: rest →
      (driverRun P solver grid s0).tsOut.get? 0
        = some ((driverStep P solver t0 s0).y.ts)) := by
  have hts : (driverRun P solver grid s0).tsOut = tsTrace P solver grid s0 := by
    rw [driverRun_tsOut, h1]; rfl
  have hexp : (driverRun P solver grid s0).expOut = expTrace P solver grid s0 := by
    rw [driverRun_expOut, h2]; rfl
  refine ⟨?_, ?_, ?_, ?_, ?_⟩
  · rw [driverRun_tOut, h3]; rfl
  · rw [hts]; exact tsTrace_length P solver grid s0
  · rw [hexp]; exact expTrace_length P solver grid s0
  · intro k hk
    rw [hts, hexp]
    exact ⟨tsTrace_get P solver grid s0 k hk, expTrace_get P solver grid s0 k hk⟩
  · intro t0 rest hgrid
    subst hgrid
    rw [hts]
    rfl

/-- Witness for C10 at a concrete input: a two-point grid `[0, 1/10]` from
empty result lists; the time column equals the grid and the first reported
tumor diameter is the post-first-window one. -/
theorem result_alignment_witness :
    (driverRun ⟨[(0 : ℚ)], 20, 252, 2700⟩ (fun _ y => y) [0, 1 / 10]
      ⟨⟨0, 0, 0, 10, 0⟩, 0, [], [], []⟩).tOut = [0, 1 / 10] ∧
    (driverRun ⟨[(0 : ℚ)], 20, 252, 2700⟩ (fun _ y => y) [0, 1 / 10]
      ⟨⟨0, 0, 0, 10, 0⟩, 0, [], [], []⟩).tsOut.get? 0
      = some ((driverStep ⟨[(0 : ℚ)], 20, 252, 2700⟩ (fun _ y => y) 0
          ⟨⟨0, 0, 0, 10, 0⟩, 0, [], [], []⟩).y.ts) := by
  have h := result_alignment ⟨[(0 : ℚ)], 20, 252, 2700⟩ (fun _ y => y)
    [0, 1 / 10] ⟨⟨0, 0, 0, 10, 0⟩, 0, [], [], []⟩ rfl rfl rfl
  exact ⟨h.1, h.2.2.2.2 0 [1 / 10] rfl⟩

/-!
## The resistance clock under an inactive flag (C5)

`solve_ivp` (RK45) advances the state by explicit Runge-Kutta updates
`y + h·Σ bᵢ·f(zᵢ)`: every stage value is an evaluation of the right-hand
side.  `rkUpdate` models one such update with arbitrary weights and stage
points, which covers every accepted or rejected adaptive step of the
window.
-/

/-- One explicit Runge-Kutta-style update for the right-hand side `f`:
componentwise `y + h · Σ bᵢ · f(zᵢ)` over an arbitrary list of
weight/stage-point pairs. -/
noncomputable def rkUpdate (f : St ℝ → St ℝ) (h : ℝ) (bz : List (ℝ × St ℝ))
    (y : St ℝ) : St ℝ :=
  { gut := y.gut + h * ((bz.map (fun q => q.1 * (f q.2).gut)).sum)
    central := y.central + h * ((bz.map (fun q => q.1 * (f q.2).central)).sum)
    periph := y.periph + h * ((bz.map (fun q => q.1 * (f q.2).periph)).sum)
    ts := y.ts + h * ((bz.map (fun q => q.1 * (f q.2).ts)).sum)
    clock := y.clock + h * ((bz.map (fun q => q.1 * (f q.2).clock)).sum) }

/-- A list summing pointwise-zero terms sums to zero. -/
theorem sum_map_zero_fun (l : List (ℝ × St ℝ)) (g : ℝ × St ℝ → ℝ)
    (hg : ∀ q, g q = 0) : (l.map g).sum = 0 := by
  induction l with
  | nil => rfl
  | cons a l ih => simp [hg, ih]

/-- **C5.** The resistance clock freezes whenever treatment is inactive:
(i) the right-hand side gives the clock derivative `0` when the active flag
is false and `1` when it is true; (ii) consequently any explicit
Runge-Kutta update built from evaluations of the inactive right-hand side
leaves the clock component of the state exactly unchanged across the
integration window; (iii) in the driver, with any window solver that
preserves the clock when handed the inactive flag, once every remaining
grid time lies beyond the treatment duration (the active predicate
`t <= treatment_duration` of `10_C2.py` line 90 is false), the clock stays
constant for the rest of the run. -/
theorem clock_freeze :
    (∀ (p : Params) (y : St ℝ),
      (tgi_model p false y).clock = 0 ∧ (tgi_model p true y).clock = 1) ∧
    (∀ (p : Params) (h : ℝ) (bz : List (ℝ × St ℝ)) (y : St ℝ),
      (rkUpdate (tgi_model p false) h bz y).clock = y.clock) ∧
    (∀ (P : DrvParams ℝ) (solver : Bool → St ℝ → St ℝ) (grid : List ℝ)
      (s : DrvState ℝ),
      (∀ y, (solver false y).clock = y.clock) →
      (∀ t ∈ grid, P.tdur < t) →
      (driverRun P solver grid s).y.clock = s.y.clock) := by
  refine ⟨?_, ?_, ?_⟩
  · intro p y
    constructor <;> norm_num [tgi_model]
  · intro p h bz y
    have hz : ∀ q : ℝ × St ℝ, q.1 * ((tgi_model p false q.2).clock) = 0 := by
      intro q
      have hc : (tgi_model p false q.2).clock = 0 := by norm_num [tgi_model]
      rw [hc, mul_zero]
    show y.clock + h * ((bz.map (fun q => q.1 * (tgi_model p false q.2).clock)).sum)
        = y.clock
    rw [sum_map_zero_fun bz _ hz, mul_zero, add_zero]
  · intro P solver grid
    induction grid with
    | nil => intro s _ _; rfl
    | cons t rest ih =>
      intro s hsol hact
      rw [driverRun_cons,
        ih (driverStep P solver t s) hsol
          (fun u hu => hact u (List.mem_cons_of_mem t hu))]
      have ht : P.tdur < t := hact t (List.mem_cons_self t rest)
      have hdec : decide (t ≤ P.tdur) = false := decide_eq_false (not_le.mpr ht)
      show (solver (decide (t ≤ P.tdur)) (applyDose P.sched P.dose t s).y).clock
          = s.y.clock
      rw [hdec, hsol ((applyDose P.sched P.dose t s).y)]
      exact (applyDose_frame P.sched P.dose t s).2.2.2.1

/-- Witness for C5 at a concrete input: treatment duration `0`, one grid
time `1 > 0`, identity window solver; the clock is unchanged. -/
theorem clock_freeze_witness :
    (driverRun ⟨([] : List ℝ), 0, 0, 1⟩ (fun _ y => y) [1]
        ⟨⟨0, 0, 0, 10, 0⟩, 0, [], [], []⟩).y.clock
      = (⟨⟨0, 0, 0, 10, 0⟩, 0, [], [], []⟩ : DrvState ℝ).y.clock := by
  refine clock_freeze.2.2 ⟨([] : List ℝ), 0, 0, 1⟩ (fun _ y => y) [1]
    ⟨⟨0, 0, 0, 10, 0⟩, 0, [], [], []⟩ (fun y => rfl) ?_
  intro t ht
  rw [List.mem_singleton] at ht
  subst ht
  norm_num

/-!
## Solver failure status (C6)

`scipy`'s `solve_ivp` returns an object carrying both a success flag
(`sol.status` / `sol.success`) and the solution values `sol.y`; model the
window result accordingly.  The driver of `10_C2.py` lines 93-95 reads only
`sol.y[:, -1]`.
-/

/-- The result of one `solve_ivp` window call: a success flag and the
end-of-window state (`sol.y[:, -1]`). -/
structure SolRes (α : Type) where
  success : Bool
  y : St α

/-- One loop iteration of `10_C2.py` with the solver's result object made
explicit: the source reads only `sol.y[:, -1]` (line 95) and never the
success flag. -/
def driverStepRes {α : Type} [LinearOrderedField α] (P : DrvParams α)
    (solver : Bool → St α → SolRes α) (t : α) (s : DrvState α) : DrvState α :=
  let s1 := applyDose P.sched P.dose t s
  let active : Bool := decide (t ≤ P.tdur)
  let y2 := (solver active s1.y).y
  { y := y2
    idx := s1.idx
    tsOut := s1.tsOut ++ [y2.ts]
    expOut := s1.expOut ++ [y2.central / P.V1]
    tOut := s1.tOut ++ [t] }

/-- The whole driver loop with the solver's result object made explicit. -/
def driverRunRes {α : Type} [LinearOrderedField α] (P : DrvParams α)
    (solver : Bool → St α → SolRes α) : List α → DrvState α → DrvState α
  | [], s => s
  | t :: rest, s => driverRunRes P solver rest (driverStepRes P solver t s)

/-- **C6 (defect exhibited).** The driver's output is entirely independent
of the solver's reported success status: a run in which every window
reports failure (`success = false`, the failing input) is state-for-state
and output-for-output identical to the all-success run and to the plain
run, so the loop continues integrating from the reported (possibly stale or
partial) window output, never aborts, and never reports the failing time —
contradicting the claim's required fatal-error behavior, which the spec
itself flags as a defect of the original scripts. -/
theorem solver_status_ignored {α : Type} [LinearOrderedField α]
    (P : DrvParams α) (solv : Bool → St α → St α) (grid : List α)
    (s : DrvState α) :
    driverRunRes P (fun b y => ⟨false, solv b y⟩) grid s
      = driverRunRes P (fun b y => ⟨true, solv b y⟩) grid s ∧
    driverRunRes P (fun b y => ⟨false, solv b y⟩) grid s
      = driverRun P solv grid s := by
  have key : ∀ (c : Bool) (g : List α) (s0 : DrvState α),
      driverRunRes P (fun b y => ⟨c, solv b y⟩) g s0 = driverRun P solv g s0 := by
    intro c g
    induction g with
    | nil => intro s0; rfl
    | cons t rest ih =>
      intro s0
      show driverRunRes P (fun b y => ⟨c, solv b y⟩) rest
          (driverStepRes P (fun b y => ⟨c, solv b y⟩) t s0)
        = driverRun P solv rest (driverStep P solv t s0)
      rw [show driverStepRes P (fun b y => ⟨c, solv b y⟩) t s0
          = driverStep P solv t s0 from rfl]
      exact ih (driverStep P solv t s0)
  exact ⟨(key false grid s).trans (key true grid s).symm, key false grid s⟩
